import Mathlib

/-!
Shallow embedding of `src/thor/trace_route_action.cc` (valhalla trace_route
action): the strategy dispatcher `trace_route`, the map-match orchestrator
`map_match`, and the two assemblers `build_trace` / `build_route`.

Modelling conventions:
* `baldr::GraphId` is modelled as `Nat`; a default-constructed (invalid) id is
  the sentinel `kInvalidGraphId`, which compares unequal to every valid id.
* C++ floats (coordinates, distances, scores) are modelled as `ℚ`; the claims
  under study are structural (which formula, which order), not about rounding.
* Vector indexing with a non-negative `int` index is modelled with `List.getD`
  / `List.set`; an out-of-range or negative access is undefined behaviour in
  the C++ and the model gives it the benign default value.
* `std::unordered_map<size_t, pair<RouteDiscontinuity, RouteDiscontinuity>>`
  is modelled as an association list with first-occurrence lookup; the code
  only ever observes it through lookups, never through iteration order.
-/

/-- Sentinel for a default-constructed `baldr::GraphId` (invalid id). -/
def kInvalidGraphId : Nat := 2 ^ 46 - 1

/-- One entry of `meili::MatchResult` restricted to the fields this
translation unit reads or writes: matched coordinate, matched edge id,
percent-distance along the edge, distance from the raw point, the global
`edge_index` (initially -1), and the two discontinuity flags. -/
structure MatchResult where
  lnglat : ℚ × ℚ
  edgeid : Nat
  distance_along : ℚ
  distance_from : ℚ
  edge_index : Int
  begins_discontinuity : Bool
  ends_discontinuity : Bool
deriving DecidableEq

instance : Inhabited MatchResult :=
  ⟨⟨(0, 0), kInvalidGraphId, 0, 0, -1, false, false⟩⟩

/-- `meili::EdgeSegment` restricted to the fields read here: the edge id, the
match-result index range it covers, and the trailing `discontinuity` flag. -/
structure EdgeSegment where
  edgeid : Nat
  first_match_idx : Int
  last_match_idx : Int
  discontinuity : Bool
deriving DecidableEq

instance : Inhabited EdgeSegment := ⟨⟨kInvalidGraphId, -1, -1, false⟩⟩

/-- `thor::PathInfo`: an edge id plus its cost payload (elapsed time etc.),
collapsed to one rational field since the code only moves it around. -/
structure PathInfo where
  edgeid : Nat
  cost : ℚ
deriving DecidableEq

instance : Inhabited PathInfo := ⟨⟨kInvalidGraphId, 0⟩⟩

/-- One element of the `paths` deque handed to the assemblers: the pair
(edge-cost vector, edge-segment vector). -/
abbrev MMPath := List PathInfo × List EdgeSegment

/-- One half of a discontinuity marker (`thor::RouteDiscontinuity`). -/
structure RouteDiscontinuity where
  present : Bool
  vertex : ℚ × ℚ
  distance_along : ℚ
deriving DecidableEq

/-- Value-initialized `RouteDiscontinuity`, as produced by `operator[]` on the
map: absent, zero coordinate, distance 0. -/
def rdDefault : RouteDiscontinuity := ⟨false, (0, 0), 0⟩

instance : Inhabited RouteDiscontinuity := ⟨rdDefault⟩

/-- The discontinuity map `unordered_map<size_t, pair<RouteDiscontinuity,
RouteDiscontinuity>>`, as an association list. -/
abbrev DiscMap := List (Nat × (RouteDiscontinuity × RouteDiscontinuity))

/-- Lookup by key (first occurrence). -/
def discLookup : DiscMap → Nat → Option (RouteDiscontinuity × RouteDiscontinuity)
  | [], _ => none
  | e :: rest, k => if e.1 = k then some e.2 else discLookup rest k

/-- Store a value under a key: replace the first occurrence, or append. -/
def discStore : DiscMap → Nat → RouteDiscontinuity × RouteDiscontinuity → DiscMap
  | [], k, v => [(k, v)]
  | e :: rest, k, v => if e.1 = k then (k, v) :: rest else e :: discStore rest k v

/-- The write `route_discontinuities[idx] = {{true, ll, da}, {false, {}, 1.f}}`
performed when a path's first match has `ends_discontinuity` set: a whole-entry
assignment whose second half is absent with distance 1. -/
def discSetBegin (m : DiscMap) (k : Nat) (ll : ℚ × ℚ) (da : ℚ) : DiscMap :=
  discStore m k (⟨true, ll, da⟩, ⟨false, (0, 0), 1⟩)

/-- The write `route_discontinuities[idx].second = {true, ll, da}` performed
when a path's last match has `begins_discontinuity` set: `operator[]`
default-inserts the entry if missing, then only `.second` is assigned. -/
def discSetEnd (m : DiscMap) (k : Nat) (ll : ℚ × ℚ) (da : ℚ) : DiscMap :=
  let cur := (discLookup m k).getD (rdDefault, rdDefault)
  discStore m k (cur.1, ⟨true, ll, da⟩)

/-- Conversion of the `int` field `edge_index` to the `size_t` map key
(two's-complement wrap to 64 bits). -/
def keyOfEdgeIndex (e : Int) : Nat := (e % (2 : Int) ^ 64).toNat

/-- Conversion of a non-negative `int` index to a vector index. -/
def intIdx (i : Int) : Nat := i.toNat

/-- `match_results[i].edge_index = v` (no-op when `i` is out of range, which
is undefined behaviour in the C++). -/
def setEdgeIndex (rs : List MatchResult) (i : Nat) (v : Nat) : List MatchResult :=
  rs.set i { rs.getD i default with edge_index := Int.ofNat v }

/-- State of the first loop of `thor_worker_t::build_trace`. -/
structure TraceLoopState where
  edge_index : Nat
  last_id : Nat
  results : List MatchResult
  origin_match : Option Nat
  dest_match : Option Nat
  discs : DiscMap
deriving DecidableEq

/-- Evolution of the running `(edge_index, last_id)` pair over one segment:
`if (last_id != segment->edgeid) ++edge_index; last_id = segment->edgeid;`. -/
def edgeStep (s : Nat × Nat) (seg : EdgeSegment) : Nat × Nat :=
  (if s.2 ≠ seg.edgeid then s.1 + 1 else s.1, seg.edgeid)

/-- Body of the inner segment loop of `build_trace`: stamp the current
`edge_index` onto the segment's first/last match results (remembering the
first of each ever seen as origin/destination match), then advance
`(edge_index, last_id)`. Note the C++ stamps before the increment check. -/
def stampSegment (st : TraceLoopState) (seg : EdgeSegment) : TraceLoopState :=
  let st1 :=
    if 0 ≤ seg.first_match_idx then
      { st with
        results := setEdgeIndex st.results (intIdx seg.first_match_idx) st.edge_index,
        origin_match :=
          match st.origin_match with
          | some j => some j
          | none => some (intIdx seg.first_match_idx) }
    else st
  let st2 :=
    if 0 ≤ seg.last_match_idx then
      { st1 with
        results := setEdgeIndex st1.results (intIdx seg.last_match_idx) st1.edge_index,
        dest_match :=
          match st1.dest_match with
          | some j => some j
          | none => some (intIdx seg.last_match_idx) }
    else st1
  let e := edgeStep (st.edge_index, st.last_id) seg
  { st2 with edge_index := e.1, last_id := e.2 }

/-- Body of the outer path loop of `build_trace`: run the segment loop, then
the per-path discontinuity bookkeeping (first match ending a gap opens a
whole entry, last match beginning a gap assigns only the second half). -/
def stampPath (st : TraceLoopState) (path : MMPath) : TraceLoopState :=
  let st' := path.2.foldl stampSegment st
  let first_segment := path.2.headD default
  let first_match := st'.results.getD (intIdx first_segment.first_match_idx) default
  let st'' :=
    if first_match.ends_discontinuity then
      { st' with
        discs := discSetBegin st'.discs (keyOfEdgeIndex first_match.edge_index)
          first_match.lnglat first_match.distance_along }
    else st'
  let last_segment := path.2.getLastD default
  let last_match := st''.results.getD (intIdx last_segment.last_match_idx) default
  if last_match.begins_discontinuity then
    { st'' with
      discs := discSetEnd st''.discs (keyOfEdgeIndex last_match.edge_index)
        last_match.lnglat last_match.distance_along }
  else st''

/-- Initial state of the first loop of `build_trace`: `edge_index = 0`,
default-constructed `last_id`, untouched match results, no origin/destination
match seen, empty discontinuity map. -/
def initTraceState (match_results : List MatchResult) : TraceLoopState :=
  ⟨0, kInvalidGraphId, match_results, none, none, []⟩

/-- The whole first loop of `build_trace` over all paths. -/
def traceLoop (paths : List MMPath) (match_results : List MatchResult) : TraceLoopState :=
  paths.foldl stampPath (initTraceState match_results)

/-- All edge segments of an interpretation, flattened in trace order. -/
def flatSegs (paths : List MMPath) : List EdgeSegment :=
  (paths.map Prod.snd).flatten

/-- The successive values of `edge_index` stamped onto the segments, one per
segment in trace order, driven by the same `(edge_index, last_id)` recurrence
as `stampSegment`. -/
def stampValuesAux (ei last : Nat) : List EdgeSegment → List Nat
  | [] => []
  | seg :: rest => ei :: stampValuesAux (edgeStep (ei, last) seg).1 seg.edgeid rest

/-- The stamped `edge_index` sequence of `build_trace`, starting from the
initial state. -/
def stampValues (segs : List EdgeSegment) : List Nat :=
  stampValuesAux 0 kInvalidGraphId segs

-- basic lemmas about the stamp sequence

theorem stampValuesAux_length (segs : List EdgeSegment) :
    ∀ ei last, (stampValuesAux ei last segs).length = segs.length := by
  induction segs with
  | nil => intro ei last; rfl
  | cons s rest ih => intro ei last; simp [stampValuesAux, ih]

theorem stampValuesAux_head (segs : List EdgeSegment) (hs : segs ≠ []) (ei last : Nat) :
    (stampValuesAux ei last segs).getD 0 0 = ei := by
  cases segs with
  | nil => exact absurd rfl hs
  | cons s rest => rfl

theorem stampValuesAux_chain (segs : List EdgeSegment) :
    ∀ ei last, List.Chain' (· ≤ ·) (stampValuesAux ei last segs) := by
  induction segs with
  | nil => intro ei last; simp [stampValuesAux]
  | cons s rest ih =>
    intro ei last
    cases rest with
    | nil => simp [stampValuesAux]
    | cons t rest' =>
      refine List.chain'_cons.mpr ⟨?_, ih _ _⟩
      simp only [stampValuesAux, edgeStep]
      split <;> omega

theorem stampValuesAux_step (segs : List EdgeSegment) :
    ∀ ei last k, k + 1 < segs.length →
      (stampValuesAux ei last segs).getD (k + 1) 0 =
        (stampValuesAux ei last segs).getD k 0 +
          (if (segs.getD k default).edgeid =
              (if k = 0 then last else (segs.getD (k - 1) default).edgeid)
           then 0 else 1) := by
  induction segs with
  | nil => intro ei last k hk; simp at hk
  | cons s rest ih =>
    intro ei last k hk
    cases k with
    | zero =>
      have hne : rest ≠ [] := by
        intro h; subst h; simp at hk
      simp only [stampValuesAux, List.getD_cons_succ, List.getD_cons_zero,
        stampValuesAux_head rest hne, edgeStep, if_pos rfl]
      by_cases h : s.edgeid = last
      · simp [h]
      · simp [h, Ne.symm h]
    | succ k' =>
      have hk' : k' + 1 < rest.length := by
        simpa using Nat.lt_of_succ_lt_succ hk
      have := ih (edgeStep (ei, last) s).1 s.edgeid k' hk'
      simp only [stampValuesAux, List.getD_cons_succ]
      rw [this]
      congr 1
      cases k' with
      | zero => simp
      | succ k'' => simp

/-- Stamping a segment writes exactly the current running `edge_index` onto
the match result at the segment's `first_match_idx` (when that index is
valid and in range). -/
theorem stampSegment_stamps_first (st : TraceLoopState) (seg : EdgeSegment)
    (h : 0 ≤ seg.first_match_idx)
    (hr : intIdx seg.first_match_idx < st.results.length) :
    ((stampSegment st seg).results.getD (intIdx seg.first_match_idx) default).edge_index =
      Int.ofNat st.edge_index := by
  unfold stampSegment
  simp only [if_pos h]
  by_cases hl : 0 ≤ seg.last_match_idx
  · simp only [if_pos hl]
    by_cases he : intIdx seg.last_match_idx = intIdx seg.first_match_idx
    · rw [he]
      simp [setEdgeIndex, List.getD_eq_getElem?_getD, List.getElem?_set_self,
        List.length_set, hr]
    · simp only [setEdgeIndex]
      rw [List.getD_eq_getElem?_getD, List.getElem?_set_ne (by omega)]
      rw [← List.getD_eq_getElem?_getD, List.getD_eq_getElem?_getD,
        List.getElem?_set_self (by simpa using hr)]
      simp
  · simp only [if_neg hl]
    simp [setEdgeIndex, List.getD_eq_getElem?_getD, List.getElem?_set_self, hr]

-- claim C1

/-- C1 (amended): in `build_trace`, the stamped `edge_index` sequence starts
at 0 and is non-decreasing, but the increment lags one segment behind the
edge-identifier transitions: the value stamped onto segment `k+1` exceeds the
value stamped onto segment `k` exactly when segment `k`'s edge id differs
from its predecessor's (with the first segment always counting as a change
from the initial invalid id), not when segment `k+1` introduces a new edge
id. Each segment stamps the current running value onto its matches. -/
theorem C1_edge_index_stamps (paths : List MMPath) :
    (stampValues (flatSegs paths)).length = (flatSegs paths).length ∧
    List.Chain' (· ≤ ·) (stampValues (flatSegs paths)) ∧
    (flatSegs paths ≠ [] → (stampValues (flatSegs paths)).getD 0 0 = 0) ∧
    (∀ k, k + 1 < (flatSegs paths).length →
      (stampValues (flatSegs paths)).getD (k + 1) 0 =
        (stampValues (flatSegs paths)).getD k 0 +
          (if ((flatSegs paths).getD k default).edgeid =
              (if k = 0 then kInvalidGraphId
               else ((flatSegs paths).getD (k - 1) default).edgeid)
           then 0 else 1)) ∧
    (∀ st seg, 0 ≤ seg.first_match_idx → intIdx seg.first_match_idx < st.results.length →
      ((stampSegment st seg).results.getD (intIdx seg.first_match_idx) default).edge_index =
        Int.ofNat st.edge_index) :=
  ⟨stampValuesAux_length _ _ _, stampValuesAux_chain _ _ _,
   fun h => stampValuesAux_head _ h _ _,
   fun k hk => stampValuesAux_step _ _ _ k hk,
   fun st seg h hr => stampSegment_stamps_first st seg h hr⟩

/-- Two one-segment paths on the same edge id 5, adjacent across the Path
boundary, with match results 0 and 1. -/
def c1paths : List MMPath :=
  [([⟨5, 0⟩], [⟨5, 0, 0, false⟩]), ([⟨5, 0⟩], [⟨5, 1, 1, false⟩])]

/-- Match results for the C1 counterexample. -/
def c1results : List MatchResult :=
  [⟨(0, 0), 5, 0, 0, -1, false, false⟩, ⟨(1, 1), 5, 0, 0, -1, false, false⟩]

/-- C1 is false as stated: two adjacent segments sharing edge id 5 (split
across a Path boundary) are stamped with different edge_index values 0 and 1,
so a same-edge boundary does increment the index. -/
theorem C1_counterexample :
    ((flatSegs c1paths).getD 0 default).edgeid = ((flatSegs c1paths).getD 1 default).edgeid ∧
    ((traceLoop c1paths c1results).results.getD 0 default).edge_index = 0 ∧
    ((traceLoop c1paths c1results).results.getD 1 default).edge_index = 1 := by
  decide

/-- Witness instantiating `C1_edge_index_stamps` on the two-path example. -/
theorem C1_edge_index_stamps_witness :
    (stampValues (flatSegs c1paths)).getD (0 + 1) 0 =
      (stampValues (flatSegs c1paths)).getD 0 0 +
        (if ((flatSegs c1paths).getD 0 default).edgeid =
            (if 0 = 0 then kInvalidGraphId
             else ((flatSegs c1paths).getD (0 - 1) default).edgeid)
         then 0 else 1) :=
  (C1_edge_index_stamps c1paths).2.2.2.1 0 (by decide)

-- lemmas about the discontinuity map primitives

theorem discStore_lookup (m : DiscMap) (k : Nat)
    (v : RouteDiscontinuity × RouteDiscontinuity) (k' : Nat) :
    discLookup (discStore m k v) k' = if k' = k then some v else discLookup m k' := by
  induction m with
  | nil => by_cases h : k' = k <;> simp [discStore, discLookup, h, Ne.symm]
  | cons e rest ih =>
    by_cases he : e.1 = k
    · by_cases h : k' = k <;>
        simp [discStore, discLookup, he, h, Ne.symm, he ▸ h]
    · simp only [discStore, if_neg he]
      by_cases h : e.1 = k'
      · have : ¬ k' = k := fun hc => he (by rw [h, hc])
        simp [discLookup, h, this]
      · simp [discLookup, h, ih]

-- claim C2

/-- C2 (amended): in `build_trace`'s discontinuity bookkeeping the two halves
merge only in the begin-then-end order. The end-half write (for a last match
with `begins_discontinuity`) preserves whatever begin half is at that index,
and writing the begin half first and then the end half yields both halves
present; but the begin-half write (for a first match with
`ends_discontinuity`) assigns the whole entry, so it resets any end half
already present at that index to absent with distance 1. -/
theorem C2_discontinuity_halves (m : DiscMap) (k : Nat) (ll1 ll2 : ℚ × ℚ) (d1 d2 : ℚ) :
    (discLookup (discSetEnd m k ll2 d2) k).map Prod.fst =
      some ((discLookup m k).getD (rdDefault, rdDefault)).1 ∧
    (discLookup (discSetBegin m k ll1 d1) k).map Prod.snd =
      some ⟨false, (0, 0), 1⟩ ∧
    discLookup (discSetEnd (discSetBegin m k ll1 d1) k ll2 d2) k =
      some (⟨true, ll1, d1⟩, ⟨true, ll2, d2⟩) := by
  refine ⟨?_, ?_, ?_⟩
  · simp [discSetEnd, discStore_lookup]
  · simp [discSetBegin, discStore_lookup]
  · simp [discSetEnd, discSetBegin, discStore_lookup]

/-- A gap beginning on edge 7 at stamped index 1 (match 1) and a gap ending
on edge 9 at the same stamped index 1 (match 2), in end-half-first order. -/
def c2results : List MatchResult :=
  [⟨(0, 0), 7, 0, 0, -1, false, false⟩,
   ⟨(1, 1), 7, 5, 0, -1, true, false⟩,
   ⟨(2, 2), 9, 6, 0, -1, false, true⟩,
   ⟨(3, 3), 9, 0, 0, -1, false, false⟩]

/-- Paths for the C2 counterexample: the first path has two segments on edge
7 (so its last match is stamped 1), the second path starts on edge 9 whose
first match is also stamped 1. -/
def c2paths : List MMPath :=
  [([⟨7, 0⟩], [⟨7, 0, 0, false⟩, ⟨7, 1, 1, true⟩]),
   ([⟨9, 0⟩], [⟨9, 2, 3, false⟩])]

/-- C2 is false as stated: match 1 begins a discontinuity and is stamped
edge_index 1, so the end half is written at map index 1; afterwards match 2,
which ends a discontinuity and is also stamped edge_index 1, writes the begin
half at the same index — and the final entry has lost the end half
(present = false), i.e. the begin-half write overwrote it. -/
theorem C2_counterexample :
    (c2results.getD 1 default).begins_discontinuity = true ∧
    (c2results.getD 2 default).ends_discontinuity = true ∧
    ((traceLoop c2paths c2results).results.getD 1 default).edge_index = 1 ∧
    ((traceLoop c2paths c2results).results.getD 2 default).edge_index = 1 ∧
    (discLookup (traceLoop c2paths c2results).discs 1).map (fun e => e.2.present) =
      some false := by
  decide

-- claim C3

theorem stampSegment_discs (st : TraceLoopState) (seg : EdgeSegment) :
    (stampSegment st seg).discs = st.discs := by
  simp only [stampSegment]
  split_ifs <;> rfl

theorem foldl_stampSegment_discs (segs : List EdgeSegment) :
    ∀ st : TraceLoopState, (segs.foldl stampSegment st).discs = st.discs := by
  induction segs with
  | nil => intro st; rfl
  | cons s rest ih => intro st; rw [List.foldl_cons, ih, stampSegment_discs]

/-- Invariant of the discontinuity map: an absent begin half carries the
value-initialized distance 0, an absent end half carries the whole-entry
assignment's distance 1. -/
def discHalvesDefaulted (m : DiscMap) : Prop :=
  ∀ k e, discLookup m k = some e →
    (e.1.present = false → e.1.distance_along = 0) ∧
    (e.2.present = false → e.2.distance_along = 1)

theorem discHalvesDefaulted_nil : discHalvesDefaulted [] := by
  intro k e h
  simp [discLookup] at h

theorem discHalvesDefaulted_setBegin (m : DiscMap) (k : Nat) (ll : ℚ × ℚ) (d : ℚ)
    (h : discHalvesDefaulted m) : discHalvesDefaulted (discSetBegin m k ll d) := by
  intro k' e he
  rw [discSetBegin, discStore_lookup] at he
  by_cases hk : k' = k
  · rw [if_pos hk] at he
    cases he
    exact ⟨by simp, by simp⟩
  · rw [if_neg hk] at he
    exact h k' e he

theorem discHalvesDefaulted_setEnd (m : DiscMap) (k : Nat) (ll : ℚ × ℚ) (d : ℚ)
    (h : discHalvesDefaulted m) : discHalvesDefaulted (discSetEnd m k ll d) := by
  intro k' e he
  simp only [discSetEnd] at he
  rw [discStore_lookup] at he
  by_cases hk : k' = k
  · rw [if_pos hk] at he
    cases he
    refine ⟨?_, by simp⟩
    cases hm : discLookup m k with
    | none => intro _; rfl
    | some e0 => simpa using (h k e0 hm).1
  · rw [if_neg hk] at he
    exact h k' e he

theorem stampPath_inv (st : TraceLoopState) (path : MMPath)
    (h : discHalvesDefaulted st.discs) : discHalvesDefaulted (stampPath st path).discs := by
  have hd : discHalvesDefaulted (path.2.foldl stampSegment st).discs := by
    rw [foldl_stampSegment_discs]; exact h
  simp only [stampPath]
  split_ifs with h1 h2 h3
  · exact discHalvesDefaulted_setEnd _ _ _ _ (discHalvesDefaulted_setBegin _ _ _ _ hd)
  · exact discHalvesDefaulted_setBegin _ _ _ _ hd
  · exact discHalvesDefaulted_setEnd _ _ _ _ hd
  · exact hd

theorem traceLoop_inv (paths : List MMPath) (results : List MatchResult) :
    discHalvesDefaulted (traceLoop paths results).discs := by
  have : ∀ st : TraceLoopState, discHalvesDefaulted st.discs →
      discHalvesDefaulted ((paths.foldl stampPath st)).discs := by
    induction paths with
    | nil => intro st h; exact h
    | cons p rest ih =>
      intro st h
      rw [List.foldl_cons]
      exact ih _ (stampPath_inv st p h)
  exact this (initTraceState results) discHalvesDefaulted_nil

/-- C3 (amended): in the discontinuity map built by `build_trace`, an absent
begin marker always has distance 0, but an absent end marker always has
distance 1 (it only arises from the whole-entry begin-half assignment, whose
second component is `{false, {}, 1.f}`). -/
theorem C3_absent_half_defaults (paths : List MMPath) (results : List MatchResult)
    (k : Nat) (e : RouteDiscontinuity × RouteDiscontinuity)
    (h : discLookup (traceLoop paths results).discs k = some e) :
    (e.1.present = false → e.1.distance_along = 0) ∧
    (e.2.present = false → e.2.distance_along = 1) :=
  traceLoop_inv paths results k e h

/-- One path on edge 7 whose first match ends a discontinuity and whose last
match does not begin one. -/
def c3results : List MatchResult :=
  [⟨(1, 2), 7, 3, 0, -1, false, true⟩, ⟨(3, 4), 7, 4, 0, -1, false, false⟩]

/-- Paths for the C3 counterexample/witness. -/
def c3paths : List MMPath := [([⟨7, 0⟩], [⟨7, 0, 1, false⟩])]

/-- C3 is false as stated: the map entry at index 0 has an end half whose
present flag is false and whose distance_along is 1, not 0. -/
theorem C3_counterexample :
    (discLookup (traceLoop c3paths c3results).discs 0).map
        (fun e => (e.2.present, e.2.distance_along)) = some (false, 1) ∧
    (1 : ℚ) ≠ 0 := by
  decide

/-- Witness instantiating `C3_absent_half_defaults` on the one-path example. -/
theorem C3_absent_half_defaults_witness :
    ((⟨true, (1, 2), 3⟩ : RouteDiscontinuity).present = false →
      (⟨true, (1, 2), 3⟩ : RouteDiscontinuity).distance_along = 0) ∧
    ((⟨false, (0, 0), 1⟩ : RouteDiscontinuity).present = false →
      (⟨false, (0, 0), 1⟩ : RouteDiscontinuity).distance_along = 1) :=
  C3_absent_half_defaults c3paths c3results 0
    (⟨true, (1, 2), 3⟩, ⟨false, (0, 0), 1⟩) (by decide)

-- claim C7: smashing the path edges into a single vector

/-- One step of the path-edge concatenation in `build_trace`: skip the new
path's first edge when it carries the same edge id as the last edge already
accumulated (`merge_last_edge`). An empty edge vector is undefined behaviour
in the C++ (`front()` on an empty vector); the model treats it as a no-op. -/
def smashStep (path_edges : List PathInfo) (path : List PathInfo) : List PathInfo :=
  path_edges ++
    path.drop
      (if path_edges ≠ [] ∧
          (path_edges.getLastD default).edgeid = (path.headD default).edgeid
       then 1 else 0)

/-- The `path_edges` vector of `build_trace`: all paths' edge-cost sequences
concatenated with the boundary merge. -/
def smash_paths (paths : List (List PathInfo)) : List PathInfo :=
  paths.foldl smashStep []

/-- C7: in `build_trace`'s concatenation, the first edge of a path is dropped
exactly when its edge id equals the id of the last edge already accumulated
(so a physical edge split across two paths appears once); and when the
following edge differs from the boundary edge, the concatenation of the
already-merged form equals the concatenation of the duplicated form. -/
theorem C7_merge_idempotent (ps : List (List PathInfo)) (b : PathInfo)
    (q : List PathInfo) :
    (smash_paths (ps ++ [b :: q]) =
      smash_paths ps ++
        (if smash_paths ps ≠ [] ∧ ((smash_paths ps).getLastD default).edgeid = b.edgeid
         then q else b :: q)) ∧
    (smash_paths ps ≠ [] →
      ((smash_paths ps).getLastD default).edgeid = b.edgeid →
      (q = [] ∨ (q.headD default).edgeid ≠ b.edgeid) →
      smash_paths (ps ++ [q]) = smash_paths (ps ++ [b :: q])) := by
  have happ : ∀ l : List PathInfo, smash_paths (ps ++ [l]) = smashStep (smash_paths ps) l := by
    intro l
    simp [smash_paths, List.foldl_append]
  constructor
  · rw [happ, smashStep]
    by_cases h : smash_paths ps ≠ [] ∧ ((smash_paths ps).getLastD default).edgeid = b.edgeid
    · rw [if_pos h, if_pos (by simpa using h)]
      rfl
    · rw [if_neg h, if_neg (by simpa using h)]
      rfl
  · intro hne hb hq
    rw [happ, happ, smashStep, smashStep]
    cases q with
    | nil =>
      simp only [List.drop_nil, List.headD_cons]
      rw [if_pos ⟨hne, hb⟩]
      simp
    | cons x q' =>
      have hq' : x.edgeid ≠ b.edgeid := by
        rcases hq with hq | hq
        · simp at hq
        · simpa using hq
      simp only [List.headD_cons]
      have h1 : ¬ (smash_paths ps ≠ [] ∧
          ((smash_paths ps).getLastD default).edgeid = x.edgeid) := by
        rintro ⟨-, hc⟩
        exact hq' (hc ▸ hb)
      rw [if_neg h1, if_pos ⟨hne, hb⟩]
      rfl

/-- Concrete paths for the C7 witness: the accumulated path ends on edge 3,
the next path starts with a duplicate of edge 3 followed by edge 4. -/
def c7ps : List (List PathInfo) := [[⟨3, 1⟩]]

/-- The duplicated boundary edge for the C7 witness. -/
def c7b : PathInfo := ⟨3, 5⟩

/-- The rest of the second path for the C7 witness. -/
def c7q : List PathInfo := [⟨4, 2⟩]

/-- Witness instantiating `C7_merge_idempotent`. -/
theorem C7_merge_idempotent_witness :
    smash_paths (c7ps ++ [c7q]) = smash_paths (c7ps ++ [c7b :: c7q]) :=
  (C7_merge_idempotent c7ps c7b c7q).2 (by decide) (by decide) (Or.inr (by decide))

-- the synthesized waypoint locations (options.mutable_shape entries)

/-- One `path_edges` entry written by `add_path_edge` onto a shape location:
graph id, percent along, coordinate, distance from the raw point. -/
structure PathEdge where
  graph_id : Nat
  percent_along : ℚ
  ll : ℚ × ℚ
  distance : ℚ
deriving DecidableEq

/-- An `options.shape(i)` location restricted to the fields this file writes:
`route_index`, `shape_index` and the faked-up `path_edges` list. -/
structure ShapeLocation where
  route_index : Nat
  shape_index : Nat
  path_edges : List PathEdge
deriving DecidableEq

instance : Inhabited ShapeLocation := ⟨⟨0, 0, []⟩⟩

/-- `std::numeric_limits<uint32_t>::max()`, the sentinel shape index. -/
def kMaxShapeIndex : Nat := 2 ^ 32 - 1

/-- `add_path_edge`: clear the location's path edges and add the single
faked-up edge built from the match result. -/
def add_path_edge (l : ShapeLocation) (m : MatchResult) : ShapeLocation :=
  { l with path_edges := [⟨m.edgeid, m.distance_along, m.lnglat, m.distance_from⟩] }

/-- Apply an update to the shape location at index `i` (out of range is a
no-op, undefined behaviour in the C++). -/
def setShapeAt (shape : List ShapeLocation) (i : Nat)
    (f : ShapeLocation → ShapeLocation) : List ShapeLocation :=
  shape.set i (f (shape.getD i default))

/-- `thor_worker_t::build_trace` in full: run the stamping/discontinuity
loop, fail with error 442 when no origin or destination match was found,
otherwise fake up the origin/destination waypoint locations, smash the path
edges into one vector and append the single new route with its single leg
(the leg geometry itself is built by the external `TripLegBuilder`). -/
def build_trace (paths : List MMPath) (match_results : List MatchResult)
    (shape : List ShapeLocation) (trip : List Nat) :
    Except Nat (List MatchResult × DiscMap × List ShapeLocation × List PathInfo × List Nat) :=
  let st := traceLoop paths match_results
  match st.origin_match, st.dest_match with
  | some oi, some di =>
      let shape1 := setShapeAt shape oi (fun l => add_path_edge l (st.results.getD oi default))
      let shape2 := setShapeAt shape1 di (fun l => add_path_edge l (st.results.getD di default))
      let path_edges := smash_paths (paths.map Prod.fst)
      .ok (st.results, st.discs, shape2, path_edges, trip ++ [1])
  | _, _ => .error 442

-- thor_worker_t::build_route

/-- One item printed to std::cout by `build_route`: the two header lines, a
`PathInfo` via its stream operator, an `EdgeSegment` via its stream operator,
and the trailing blank line. -/
inductive LogItem where
  | pathHeader : LogItem
  | pathEdge (p : PathInfo) : LogItem
  | segHeader : LogItem
  | segItem (s : EdgeSegment) : LogItem
  | blank : LogItem
deriving DecidableEq

/-- Observer record of the numbering one path receives in `build_route`: the
`route_index` stamped on its span and the `shape_index` values assigned to
its origin and destination waypoint locations. -/
structure RouteEvent where
  route : Nat
  originWp : Nat
  destWp : Nat
  origin_idx : Int
  dest_idx : Int
deriving DecidableEq

instance : Inhabited RouteEvent := ⟨⟨0, 0, 0, -1, -1⟩⟩

/-- State of `build_route`'s loop over the paths. `match_results` is the
const reference the C++ only reads. -/
structure BuildRouteState where
  match_results : List MatchResult
  way_point_index : Nat
  routeOpen : Bool
  route_index : Nat
  trip : List Nat
  shape : List ShapeLocation
  log : List LogItem
  events : List RouteEvent
deriving DecidableEq

/-- The stamping loop `for (int i = origin_match_idx; i <= dest_match_idx;
++i)`: set `route_index` and the sentinel `shape_index` on every spanned
shape location. -/
def stampRouteIndex (shape : List ShapeLocation) (lo hi : Int) (ri : Nat) :
    List ShapeLocation :=
  (List.range (hi + 1 - lo).toNat).foldl
    (fun s j =>
      setShapeAt s (intIdx (lo + j))
        (fun l => { l with route_index := ri, shape_index := kMaxShapeIndex }))
    shape

/-- Add one leg to the currently open (last) route. -/
def addLegToLast (trip : List Nat) : List Nat :=
  trip.dropLast ++ [trip.getLastD 0 + 1]

/-- Whether a path's trailing segment carries the `discontinuity` flag. -/
def flaggedPath (p : MMPath) : Bool := (p.2.getLastD default).discontinuity

/-- Body of the path loop of `thor_worker_t::build_route`: print the path to
std::cout, open a new route if none is open (resetting `way_point_index`),
stamp `route_index`/sentinel `shape_index` over the spanned shape range,
assign the origin/destination waypoint indices, fake up their path edges,
append the new leg, and close the route after a trailing discontinuity. -/
def build_route_step (st : BuildRouteState) (path : MMPath) : BuildRouteState :=
  let log' := st.log ++ [LogItem.pathHeader] ++ path.1.map LogItem.pathEdge ++
    [LogItem.segHeader] ++ path.2.map LogItem.segItem ++ [LogItem.blank]
  let trip1 := if st.routeOpen then st.trip else st.trip ++ [0]
  let wp0 := if st.routeOpen then st.way_point_index else 0
  let origin_match_idx := (path.2.headD default).first_match_idx
  let dest_match_idx := (path.2.getLastD default).last_match_idx
  let shape1 := stampRouteIndex st.shape origin_match_idx dest_match_idx st.route_index
  let shape2 := setShapeAt shape1 (intIdx origin_match_idx)
    (fun l => { l with shape_index := wp0 })
  let wp1 := wp0 + 1
  let shape3 := setShapeAt shape2 (intIdx dest_match_idx)
    (fun l => { l with shape_index := wp1 })
  let origin_match := st.match_results.getD (intIdx origin_match_idx) default
  let dest_match := st.match_results.getD (intIdx dest_match_idx) default
  let shape4 := setShapeAt shape3 (intIdx origin_match_idx) (fun l => add_path_edge l origin_match)
  let shape5 := setShapeAt shape4 (intIdx dest_match_idx) (fun l => add_path_edge l dest_match)
  let trip2 := addLegToLast trip1
  let ev : RouteEvent := ⟨st.route_index, wp0, wp1, origin_match_idx, dest_match_idx⟩
  let flagged := flaggedPath path
  { match_results := st.match_results
    way_point_index := wp1
    routeOpen := !flagged
    route_index := if flagged then st.route_index + 1 else st.route_index
    trip := trip2
    shape := shape5
    log := log'
    events := st.events ++ [ev] }

/-- Initial state of `build_route`: no route open, `way_point_index` and
`route_index` 0. -/
def initBuildRouteState (match_results : List MatchResult)
    (shape : List ShapeLocation) (trip : List Nat) : BuildRouteState :=
  ⟨match_results, 0, false, 0, trip, shape, [], []⟩

/-- `thor_worker_t::build_route` over all paths. -/
def build_route (paths : List MMPath) (match_results : List MatchResult)
    (shape : List ShapeLocation) (trip : List Nat) : BuildRouteState :=
  paths.foldl build_route_step (initBuildRouteState match_results shape trip)

-- characterizations of the build_route fold

/-- The numbering events `build_route` produces from a given loop state. -/
def eventsSpec (routeOpen : Bool) (wp ri : Nat) : List MMPath → List RouteEvent
  | [] => []
  | p :: rest =>
    let wp0 := if routeOpen then wp else 0
    ⟨ri, wp0, wp0 + 1, (p.2.headD default).first_match_idx,
      (p.2.getLastD default).last_match_idx⟩ ::
      eventsSpec (!flaggedPath p) (wp0 + 1) (if flaggedPath p then ri + 1 else ri) rest

/-- The number of routes `build_route` opens from a given loop state. -/
def routesOpened (routeOpen : Bool) : List MMPath → Nat
  | [] => 0
  | p :: rest => (if routeOpen then 0 else 1) + routesOpened (!flaggedPath p) rest

theorem build_route_foldl_events (paths : List MMPath) :
    ∀ st : BuildRouteState,
      (paths.foldl build_route_step st).events =
        st.events ++ eventsSpec st.routeOpen st.way_point_index st.route_index paths := by
  induction paths with
  | nil => intro st; simp [eventsSpec]
  | cons p rest ih =>
    intro st
    rw [List.foldl_cons, ih]
    simp [build_route_step, eventsSpec]

theorem addLegToLast_length (l : List Nat) (h : l ≠ []) :
    (addLegToLast l).length = l.length := by
  have : 1 ≤ l.length := by
    cases l with
    | nil => exact absurd rfl h
    | cons a t => simp
  simp [addLegToLast]
  omega

theorem build_route_foldl_trip_length (paths : List MMPath) :
    ∀ st : BuildRouteState, (st.routeOpen = true → st.trip ≠ []) →
      (paths.foldl build_route_step st).trip.length =
        st.trip.length + routesOpened st.routeOpen paths := by
  induction paths with
  | nil => intro st _; simp [routesOpened]
  | cons p rest ih =>
    intro st hro
    rw [List.foldl_cons, ih]
    · have htrip1 : (if st.routeOpen then st.trip else st.trip ++ [0]) ≠ [] := by
        by_cases hb : st.routeOpen <;> simp [hb, hro]
      simp only [build_route_step]
      rw [addLegToLast_length _ htrip1]
      by_cases hb : st.routeOpen = true <;> (simp [hb, routesOpened]; try omega)
    · intro _
      simp [build_route_step, addLegToLast]

theorem build_route_foldl_route_index (paths : List MMPath) :
    ∀ st : BuildRouteState,
      (paths.foldl build_route_step st).route_index =
        st.route_index + paths.countP flaggedPath := by
  induction paths with
  | nil => intro st; simp
  | cons p rest ih =>
    intro st
    rw [List.foldl_cons, ih]
    by_cases hb : flaggedPath p = true <;>
      (simp [build_route_step, hb, List.countP_cons]; try omega)

theorem routesOpened_eq_boundaries (paths : List MMPath) :
    ∀ b : Bool, paths ≠ [] →
      routesOpened b paths =
        (if b then 0 else 1) + paths.dropLast.countP flaggedPath := by
  induction paths with
  | nil => intro b h; exact absurd rfl h
  | cons p rest ih =>
    intro b _
    cases rest with
    | nil => simp [routesOpened]
    | cons r rest' =>
      rw [routesOpened, ih (!flaggedPath p) (by simp)]
      simp only [List.dropLast_cons₂, List.countP_cons]
      by_cases hp : flaggedPath p = true <;> by_cases hb : b = true <;>
        simp [hp, hb] <;> omega

theorem eventsSpec_length (paths : List MMPath) :
    ∀ b wp ri, (eventsSpec b wp ri paths).length = paths.length := by
  induction paths with
  | nil => intro b wp ri; rfl
  | cons p rest ih => intro b wp ri; simp [eventsSpec, ih]

theorem eventsSpec_head_originWp (paths : List MMPath) (h : paths ≠ []) (b : Bool)
    (wp ri : Nat) :
    ((eventsSpec b wp ri paths).getD 0 default).originWp = if b then wp else 0 := by
  cases paths with
  | nil => exact absurd rfl h
  | cons p rest => rfl

theorem eventsSpec_head_route (paths : List MMPath) (h : paths ≠ []) (b : Bool)
    (wp ri : Nat) :
    ((eventsSpec b wp ri paths).getD 0 default).route = ri := by
  cases paths with
  | nil => exact absurd rfl h
  | cons p rest => rfl

theorem eventsSpec_destWp (paths : List MMPath) :
    ∀ b wp ri k, k < paths.length →
      ((eventsSpec b wp ri paths).getD k default).destWp =
        ((eventsSpec b wp ri paths).getD k default).originWp + 1 := by
  induction paths with
  | nil => intro b wp ri k hk; simp at hk
  | cons p rest ih =>
    intro b wp ri k hk
    cases k with
    | zero => rfl
    | succ k' =>
      have hk' : k' < rest.length := by simpa using Nat.lt_of_succ_lt_succ hk
      simpa [eventsSpec] using ih _ _ _ k' hk'

theorem eventsSpec_step (paths : List MMPath) :
    ∀ b wp ri k, k + 1 < paths.length →
      (((eventsSpec b wp ri paths).getD (k + 1) default).originWp =
        (if flaggedPath (paths.getD k default) then 0
         else ((eventsSpec b wp ri paths).getD k default).destWp)) ∧
      (((eventsSpec b wp ri paths).getD (k + 1) default).route =
        ((eventsSpec b wp ri paths).getD k default).route +
          (if flaggedPath (paths.getD k default) then 1 else 0)) := by
  induction paths with
  | nil => intro b wp ri k hk; simp at hk
  | cons p rest ih =>
    intro b wp ri k hk
    cases k with
    | zero =>
      have hne : rest ≠ [] := by
        intro h; subst h; simp at hk
      constructor
      · simp only [eventsSpec, List.getD_cons_succ, List.getD_cons_zero]
        rw [eventsSpec_head_originWp rest hne]
        by_cases hp : flaggedPath p = true <;> simp [hp]
      · simp only [eventsSpec, List.getD_cons_succ, List.getD_cons_zero]
        rw [eventsSpec_head_route rest hne]
        by_cases hp : flaggedPath p = true <;> simp [hp]
    | succ k' =>
      have hk' : k' + 1 < rest.length := by simpa using Nat.lt_of_succ_lt_succ hk
      simpa [eventsSpec] using ih _ _ _ k' hk'

-- claim C5

/-- C5: in `build_route`, the number of routes appended equals the number of
discontinuity-flagged path boundaries (flagged paths followed by another
path) plus one; each path's destination waypoint index is its origin's plus
one; the first path's origin waypoint index and route number are 0; the next
path's origin waypoint index continues the previous destination within a
route and resets to 0 after a flagged path, at which point the route number
increments by exactly one; the final `route_index` counts all flagged
paths. -/
theorem C5_route_splitting (paths : List MMPath) (match_results : List MatchResult)
    (shape : List ShapeLocation) (trip : List Nat) (hne : paths ≠ []) :
    (build_route paths match_results shape trip).trip.length =
      trip.length + 1 + paths.dropLast.countP flaggedPath ∧
    (build_route paths match_results shape trip).events.length = paths.length ∧
    (∀ k, k < paths.length →
      ((build_route paths match_results shape trip).events.getD k default).destWp =
        ((build_route paths match_results shape trip).events.getD k default).originWp + 1) ∧
    ((build_route paths match_results shape trip).events.getD 0 default).originWp = 0 ∧
    ((build_route paths match_results shape trip).events.getD 0 default).route = 0 ∧
    (∀ k, k + 1 < paths.length →
      (((build_route paths match_results shape trip).events.getD (k + 1) default).originWp =
        (if flaggedPath (paths.getD k default) then 0
         else ((build_route paths match_results shape trip).events.getD k default).destWp)) ∧
      (((build_route paths match_results shape trip).events.getD (k + 1) default).route =
        ((build_route paths match_results shape trip).events.getD k default).route +
          (if flaggedPath (paths.getD k default) then 1 else 0))) ∧
    (build_route paths match_results shape trip).route_index = paths.countP flaggedPath := by
  have hev : (build_route paths match_results shape trip).events =
      eventsSpec false 0 0 paths := by
    rw [build_route, build_route_foldl_events]
    rfl
  refine ⟨?_, ?_, ?_, ?_, ?_, ?_, ?_⟩
  · rw [build_route, build_route_foldl_trip_length paths _ (by intro h; simp [initBuildRouteState] at h)]
    show trip.length + routesOpened false paths = _
    rw [routesOpened_eq_boundaries paths false hne]
    have hone : (if false = true then 0 else 1) = 1 := rfl
    rw [hone]
    omega
  · rw [hev, eventsSpec_length]
  · intro k hk
    rw [hev]
    exact eventsSpec_destWp paths false 0 0 k hk
  · rw [hev, eventsSpec_head_originWp paths hne]
    rfl
  · rw [hev, eventsSpec_head_route paths hne]
  · intro k hk
    rw [hev]
    exact eventsSpec_step paths false 0 0 k hk
  · rw [build_route, build_route_foldl_route_index]
    simp [initBuildRouteState]

/-- Paths for the C5 witness: the first path's trailing segment is flagged
as a discontinuity, the second is not, giving one flagged boundary. -/
def c5paths : List MMPath :=
  [([⟨1, 0⟩], [⟨1, 0, 0, true⟩]), ([⟨2, 0⟩], [⟨2, 1, 1, false⟩])]

/-- Match results for the C5 witness. -/
def c5results : List MatchResult :=
  [⟨(0, 0), 1, 0, 0, -1, false, false⟩, ⟨(1, 1), 2, 0, 0, -1, false, false⟩]

/-- Shape locations for the C5 witness. -/
def c5shape : List ShapeLocation := [⟨0, 0, []⟩, ⟨0, 0, []⟩]

/-- Witness instantiating `C5_route_splitting` on the two-path example with
one flagged boundary. -/
theorem C5_route_splitting_witness :
    (build_route c5paths c5results c5shape []).trip.length =
      ([] : List Nat).length + 1 + c5paths.dropLast.countP flaggedPath ∧
    (((build_route c5paths c5results c5shape []).events.getD (0 + 1) default).originWp =
      (if flaggedPath (c5paths.getD 0 default) then 0
       else ((build_route c5paths c5results c5shape []).events.getD 0 default).destWp)) :=
  ⟨(C5_route_splitting c5paths c5results c5shape [] (by decide)).1,
   ((C5_route_splitting c5paths c5results c5shape [] (by decide)).2.2.2.2.2.1 0
      (by decide)).1⟩

-- claim C9

/-- A match result with its `edge_index` reset to the initial -1: two match
results agree on every other field exactly when their images under this map
are equal. -/
def clearEdgeIndex (r : MatchResult) : MatchResult := { r with edge_index := -1 }

theorem setEdgeIndex_map_clear (rs : List MatchResult) :
    ∀ i v, (setEdgeIndex rs i v).map clearEdgeIndex = rs.map clearEdgeIndex := by
  induction rs with
  | nil => intro i v; rfl
  | cons a t ih =>
    intro i v
    cases i with
    | zero => simp [setEdgeIndex, clearEdgeIndex]
    | succ i' =>
      show (a :: setEdgeIndex t i' v).map clearEdgeIndex = _
      simp [ih i' v]

theorem stampSegment_map_clear (st : TraceLoopState) (seg : EdgeSegment) :
    (stampSegment st seg).results.map clearEdgeIndex = st.results.map clearEdgeIndex := by
  simp only [stampSegment]
  split_ifs <;> simp [setEdgeIndex_map_clear]

theorem foldl_stampSegment_map_clear (segs : List EdgeSegment) :
    ∀ st : TraceLoopState,
      (segs.foldl stampSegment st).results.map clearEdgeIndex =
        st.results.map clearEdgeIndex := by
  induction segs with
  | nil => intro st; rfl
  | cons s rest ih =>
    intro st
    rw [List.foldl_cons, ih, stampSegment_map_clear]

theorem stampPath_results (st : TraceLoopState) (p : MMPath) :
    (stampPath st p).results = (p.2.foldl stampSegment st).results := by
  simp only [stampPath]
  split_ifs <;> rfl

theorem traceLoop_map_clear (paths : List MMPath) (results : List MatchResult) :
    (traceLoop paths results).results.map clearEdgeIndex =
      results.map clearEdgeIndex := by
  have : ∀ st : TraceLoopState,
      (paths.foldl stampPath st).results.map clearEdgeIndex =
        st.results.map clearEdgeIndex := by
    induction paths with
    | nil => intro st; rfl
    | cons p rest ih =>
      intro st
      rw [List.foldl_cons, ih, stampPath_results, foldl_stampSegment_map_clear]
  exact this (initTraceState results)

theorem build_route_match_results (paths : List MMPath) :
    ∀ st : BuildRouteState,
      (paths.foldl build_route_step st).match_results = st.match_results := by
  induction paths with
  | nil => intro st; rfl
  | cons p rest ih =>
    intro st
    rw [List.foldl_cons, ih]
    rfl

/-- C9: assembly mutates only the `edge_index` field of the match results:
after `build_trace`'s loop every match result agrees with its input on every
field other than `edge_index`, and the sequence's length and order are
unchanged (so `match_results[i]` still corresponds to trace point `i`); and
`build_route` does not modify the match results at all. -/
theorem C9_match_results_frame (paths : List MMPath) (results : List MatchResult)
    (shape : List ShapeLocation) (trip : List Nat) :
    (traceLoop paths results).results.map clearEdgeIndex =
      results.map clearEdgeIndex ∧
    (traceLoop paths results).results.length = results.length ∧
    (build_route paths results shape trip).match_results = results := by
  refine ⟨traceLoop_map_clear paths results, ?_, build_route_match_results paths _⟩
  have h := congrArg List.length (traceLoop_map_clear paths results)
  simpa using h

-- claim C10

/-- The exact std::cout output of `build_route`: for every path, in order,
the header line, the path's edge-cost entries, the segments header, the
path's edge segments, and a blank line. -/
def routeLogSpec : List MMPath → List LogItem
  | [] => []
  | p :: rest =>
      [LogItem.pathHeader] ++ p.1.map LogItem.pathEdge ++ [LogItem.segHeader] ++
        p.2.map LogItem.segItem ++ [LogItem.blank] ++ routeLogSpec rest

theorem build_route_foldl_log (paths : List MMPath) :
    ∀ st : BuildRouteState,
      (paths.foldl build_route_step st).log = st.log ++ routeLogSpec paths := by
  induction paths with
  | nil => intro st; simp [routeLogSpec]
  | cons p rest ih =>
    intro st
    rw [List.foldl_cons, ih]
    simp [build_route_step, routeLogSpec]

/-- C10: `build_route` writes, for every path it processes, the path's
edge-cost entries and its edge segments to the process's standard output —
a side effect on every multi-route request, present for every path. -/
theorem C10_stdout_side_effect (paths : List MMPath) (match_results : List MatchResult)
    (shape : List ShapeLocation) (trip : List Nat) :
    (build_route paths match_results shape trip).log = routeLogSpec paths := by
  rw [build_route, build_route_foldl_log]
  rfl

-- thor_worker_t::trace_route, the strategy dispatcher

/-- The `ShapeMatch` request mode. -/
inductive ShapeMatch where
  | edge_walk
  | map_snap
  | walk_or_snap
deriving DecidableEq

/-- Which external sub-action the dispatcher invoked, in order. -/
inductive TraceCall where
  | routeMatchCall
  | mapMatchCall
deriving DecidableEq

/-- A `valhalla_exception_t`: the stable numeric code, plus the extra message
text when the throw site supplies one (the per-code catalog text lives
outside this translation unit and is modelled as `none`). -/
structure ValhallaError where
  code : Nat
  message : Option String
deriving DecidableEq

/-- The guidance message attached to error 443 in the `edge_walk` branch
(`ShapeMatch_Enum_Name` of the mode plus the fixed text; the single quotes
around walk_or_snap in the source literal are elided). -/
def edgeWalkFailureMessage : String :=
  "edge_walk algorithm failed to find exact route match.  Try using " ++
    "shape_match:walk_or_snap to fallback to map-matching algorithm"

/-- `thor_worker_t::trace_route`: dispatch on the shape-match mode. The
outcomes of the external `route_match` and `map_match` calls are abstracted
as `Except` parameters; the returned list records which calls were made, in
order. -/
def trace_route (sm : ShapeMatch) (rm : Except Unit Unit) (mm : Except Unit Unit) :
    Except ValhallaError Unit × List TraceCall :=
  match sm with
  | .edge_walk =>
    (match rm with
     | .ok _ => .ok ()
     | .error _ => .error ⟨443, some edgeWalkFailureMessage⟩,
     [.routeMatchCall])
  | .map_snap =>
    (match mm with
     | .ok _ => .ok ()
     | .error _ => .error ⟨442, none⟩,
     [.mapMatchCall])
  | .walk_or_snap =>
    match rm with
    | .ok _ => (.ok (), [.routeMatchCall])
    | .error _ =>
      (match mm with
       | .ok _ => .ok ()
       | .error _ => .error ⟨442, none⟩,
       [.routeMatchCall, .mapMatchCall])

-- claim C6

/-- C6: the dispatcher surfaces exactly two typed errors with distinct stable
codes. In `edge_walk` mode a `route_match` failure raises 443 with the
fallback guidance after exactly one `route_match` call; in `map_snap` mode a
`map_match` failure raises the generic 442; in `walk_or_snap` mode a
`route_match` failure triggers exactly one fallback `map_match` call, whose
failure raises 442 and whose success succeeds; a `route_match` success never
calls `map_match`. -/
theorem C6_dispatcher_errors (rm mm : Except Unit Unit) :
    trace_route .edge_walk (.error ()) mm =
      (.error ⟨443, some edgeWalkFailureMessage⟩, [.routeMatchCall]) ∧
    trace_route .map_snap rm (.error ()) = (.error ⟨442, none⟩, [.mapMatchCall]) ∧
    trace_route .walk_or_snap (.error ()) (.error ()) =
      (.error ⟨442, none⟩, [.routeMatchCall, .mapMatchCall]) ∧
    trace_route .walk_or_snap (.error ()) (.ok ()) =
      (.ok (), [.routeMatchCall, .mapMatchCall]) ∧
    trace_route .walk_or_snap (.ok ()) mm = (.ok (), [.routeMatchCall]) ∧
    (443 : Nat) ≠ 442 :=
  ⟨rfl, rfl, rfl, rfl, rfl, by decide⟩

-- thor_worker_t::map_match

/-- One ranked interpretation returned by `matcher->OfflineMatch`: its raw
score, its per-point match results, and its raw edge segments. -/
structure MatchedPathResult where
  score : ℚ
  results : List MatchResult
  segments : List EdgeSegment
deriving DecidableEq

/-- The request action relevant to `map_match`'s branching. -/
inductive RequestAction where
  | trace_route
  | trace_attributes
deriving DecidableEq

/-- One element of the returned vector:
(confidence score, raw score, match results). -/
abbrev ScoreTuple := ℚ × ℚ × List MatchResult

/-- Default tuple; `front()` is only ever read when the vector is
nonempty. -/
def dfltTuple : ScoreTuple := (0, 0, [])

/-- The per-interpretation loop of `map_match`, threading the request's trip
and shape (mutated in place in the C++, hence returned even on error) and
accumulating the score tuples. `form_path` abstracts the external
`MapMatcher::FormPath`. An interpretation with an empty segment list throws
`std::exception` (modelled `.error ()`), and `build_trace`'s no-coverage
throw also propagates. The OSRM match-point enrichment block only fills the
shape locations' candidate lists for one output format and is not
modelled. -/
def mmLoop (form_path : MatchedPathResult → List MMPath) (action : RequestAction) :
    List MatchedPathResult → List Nat → List ShapeLocation → List ScoreTuple →
      Except Unit (List ScoreTuple) × List Nat × List ShapeLocation
  | [], trip, shape, acc => (.ok acc, trip, shape)
  | result :: rest, trip, shape, acc =>
    if result.segments = [] then (.error (), trip, shape)
    else
      match action with
      | .trace_attributes =>
        match build_trace (form_path result) result.results shape trip with
        | .ok (results', _, shape', _, trip') =>
          let conf := if acc = [] then 1 else (acc.headD dfltTuple).2.1 / result.score
          mmLoop form_path action rest trip' shape'
            (acc ++ [(conf, result.score, results')])
        | .error _ => (.error (), trip, shape)
      | .trace_route =>
        let br := build_route (form_path result) result.results shape trip
        let conf := if acc = [] then 1 else (acc.headD dfltTuple).2.1 / result.score
        mmLoop form_path action rest br.trip br.shape
          (acc ++ [(conf, result.score, result.results)])

/-- `thor_worker_t::map_match`: an empty trace returns an empty result set
(not an error); otherwise run the per-interpretation loop over the ranked
interpretations with an empty accumulator. -/
def map_match (form_path : MatchedPathResult → List MMPath) (action : RequestAction)
    (trace_size : Nat) (interps : List MatchedPathResult)
    (trip : List Nat) (shape : List ShapeLocation) :
    Except Unit (List ScoreTuple) × List Nat × List ShapeLocation :=
  if trace_size = 0 then (.ok [], trip, shape)
  else mmLoop form_path action interps trip shape []

-- claim C8

theorem headD_append_of_ne_nil {α : Type} (l l2 : List α) (d : α) (h : l ≠ []) :
    (l ++ l2).headD d = l.headD d := by
  cases l with
  | nil => exact absurd rfl h
  | cons a t => rfl

/-- The relative-score law, written from the spec sentence: the best (first)
interpretation gets confidence 1, each later one gets the best raw score
divided by its own raw score, each paired with its raw score and match
results, in rank order. -/
def relativeScoresSpec : List MatchedPathResult → List ScoreTuple
  | [] => []
  | r0 :: rest =>
    (1, r0.score, r0.results) ::
      rest.map (fun r => (r0.score / r.score, r.score, r.results))

instance {e a : Type} [DecidableEq e] [DecidableEq a] : DecidableEq (Except e a)
  | .error x, .error y =>
    if h : x = y then isTrue (by rw [h]) else isFalse (by intro hc; cases hc; exact h rfl)
  | .error _, .ok _ => isFalse (by intro hc; cases hc)
  | .ok _, .error _ => isFalse (by intro hc; cases hc)
  | .ok x, .ok y =>
    if h : x = y then isTrue (by rw [h]) else isFalse (by intro hc; cases hc; exact h rfl)

theorem mmLoop_cons_trace_route (form_path : MatchedPathResult → List MMPath)
    (r : MatchedPathResult) (rest : List MatchedPathResult) (trip : List Nat)
    (shape : List ShapeLocation) (acc : List ScoreTuple) (hr : ¬ r.segments = []) :
    mmLoop form_path .trace_route (r :: rest) trip shape acc =
      mmLoop form_path .trace_route rest
        (build_route (form_path r) r.results shape trip).trip
        (build_route (form_path r) r.results shape trip).shape
        (acc ++ [(if acc = [] then 1 else (acc.headD dfltTuple).2.1 / r.score,
                  r.score, r.results)]) := by
  simp [mmLoop, hr]

theorem mmLoop_trace_route_ok (form_path : MatchedPathResult → List MMPath)
    (rest : List MatchedPathResult) :
    ∀ (trip : List Nat) (shape : List ShapeLocation) (acc : List ScoreTuple),
      (∀ r ∈ rest, r.segments ≠ []) → acc ≠ [] →
      (mmLoop form_path .trace_route rest trip shape acc).1 =
        .ok (acc ++ rest.map
          (fun r => ((acc.headD dfltTuple).2.1 / r.score, r.score, r.results))) := by
  induction rest with
  | nil => intro trip shape acc _ _; simp [mmLoop]
  | cons r rest2 ih =>
    intro trip shape acc hseg hacc
    rw [mmLoop_cons_trace_route _ _ _ _ _ _ (hseg r (by simp)), if_neg hacc]
    rw [ih _ _ _ (fun x hx => hseg x (by simp [hx])) (by simp)]
    simp only [headD_append_of_ne_nil _ _ _ hacc]
    simp [List.append_assoc]

/-- C8: on a nonempty trace whose ranked interpretations all have segments,
`map_match` (trace_route action) returns, in rank order, tuples whose first
(best) confidence is exactly 1 and whose later confidences are the best raw
score divided by the interpretation's own raw score, each paired with the
interpretation's raw score and match results. -/
theorem C8_relative_scores (form_path : MatchedPathResult → List MMPath)
    (interps : List MatchedPathResult) (trace_size : Nat)
    (trip : List Nat) (shape : List ShapeLocation)
    (htrace : trace_size ≠ 0) (hseg : ∀ r ∈ interps, r.segments ≠ []) :
    (map_match form_path .trace_route trace_size interps trip shape).1 =
      .ok (relativeScoresSpec interps) := by
  rw [map_match, if_neg htrace]
  cases interps with
  | nil => simp [mmLoop, relativeScoresSpec]
  | cons r0 rest =>
    rw [mmLoop_cons_trace_route _ _ _ _ _ _ (hseg r0 (by simp)), if_pos rfl]
    rw [mmLoop_trace_route_ok _ _ _ _ _ (fun x hx => hseg x (by simp [hx])) (by simp)]
    simp [relativeScoresSpec, dfltTuple]

/-- The external `MapMatcher::FormPath` abstracted for the concrete
examples: one path holding the interpretation's segments and a single edge
7. -/
def fpEx : MatchedPathResult → List MMPath :=
  fun r => [(([⟨7, 1⟩] : List PathInfo), r.segments)]

/-- Two ranked interpretations with raw scores 4 and 8, both with one
segment on edge 7. -/
def c8interps : List MatchedPathResult :=
  [⟨4, [⟨(0, 0), 7, 0, 0, -1, false, false⟩], [⟨7, 0, 0, false⟩]⟩,
   ⟨8, [⟨(1, 1), 7, 0, 0, -1, false, false⟩], [⟨7, 0, 0, false⟩]⟩]

/-- A shape array with one location. -/
def c4shape : List ShapeLocation := [⟨0, 0, []⟩]

/-- Witness instantiating `C8_relative_scores` on the two-interpretation
example. -/
theorem C8_relative_scores_witness :
    (map_match fpEx .trace_route 1 c8interps [] c4shape).1 =
      .ok (relativeScoresSpec c8interps) :=
  C8_relative_scores fpEx c8interps 1 [] c4shape (by decide) (by decide)

-- claim C4

/-- A usable interpretation: raw score 4, one match result, one segment. -/
def c4good : MatchedPathResult :=
  ⟨4, [⟨(0, 0), 7, 0, 0, -1, false, false⟩], [⟨7, 0, 0, false⟩]⟩

/-- An interpretation with an empty segment list. -/
def c4bad : MatchedPathResult := ⟨8, [], []⟩

/-- C4 is false as stated: with a usable first interpretation followed by an
empty-segments one, `map_match` fails with the map-match error, but at the
throw point one route has already been appended to the request's trip — the
failure is not atomic for the whole call. -/
theorem C4_counterexample :
    (map_match fpEx .trace_route 1 [c4good, c4bad] [] c4shape).1 = .error () ∧
    (map_match fpEx .trace_route 1 [c4good, c4bad] [] c4shape).2.1 = [1] ∧
    ([1] : List Nat) ≠ [] := by
  decide

/-- The trip/shape state after building routes for a list of (usable)
interpretations, in order. -/
def buildRoutesFor (form_path : MatchedPathResult → List MMPath) :
    List MatchedPathResult → List Nat × List ShapeLocation →
      List Nat × List ShapeLocation
  | [], ts => ts
  | r :: rest, ts =>
    let br := build_route (form_path r) r.results ts.2 ts.1
    buildRoutesFor form_path rest (br.trip, br.shape)

theorem mmLoop_trace_route_error (form_path : MatchedPathResult → List MMPath)
    (interps : List MatchedPathResult) :
    ∀ (trip : List Nat) (shape : List ShapeLocation) (acc : List ScoreTuple),
      (∃ r ∈ interps, r.segments = []) →
      (mmLoop form_path .trace_route interps trip shape acc).1 = .error () ∧
      (mmLoop form_path .trace_route interps trip shape acc).2 =
        buildRoutesFor form_path
          (interps.takeWhile (fun r => !r.segments.isEmpty)) (trip, shape) := by
  induction interps with
  | nil =>
    intro trip shape acc hbad
    simp at hbad
  | cons r rest ih =>
    intro trip shape acc hbad
    by_cases hr : r.segments = []
    · simp [mmLoop, hr, buildRoutesFor, List.takeWhile_cons]
    · have hbad2 : ∃ x ∈ rest, x.segments = [] := by
        rcases hbad with ⟨x, hx, hxe⟩
        rcases List.mem_cons.mp hx with hx0 | hx1
        · exact absurd (hx0 ▸ hxe) hr
        · exact ⟨x, hx1, hxe⟩
      have hpred : (!r.segments.isEmpty) = true := by
        simp [List.isEmpty_iff, hr]
      rw [mmLoop_cons_trace_route _ _ _ _ _ _ hr]
      refine ⟨(ih _ _ _ hbad2).1, ?_⟩
      rw [(ih _ _ _ hbad2).2, List.takeWhile_cons, if_pos hpred]
      rfl

/-- C4 (amended): an interpretation with an empty segment list still fails
the whole `map_match` call, and nothing is appended for the failing
interpretation or any later one; but the routes already appended for the
earlier, usable interpretations of the same call remain in the trip (the
request is mutated in place). In particular the trip is untouched only when
the empty interpretation comes first. -/
theorem C4_empty_segments (form_path : MatchedPathResult → List MMPath)
    (interps : List MatchedPathResult) (trace_size : Nat)
    (trip : List Nat) (shape : List ShapeLocation)
    (htrace : trace_size ≠ 0) (hbad : ∃ r ∈ interps, r.segments = []) :
    (map_match form_path .trace_route trace_size interps trip shape).1 = .error () ∧
    (map_match form_path .trace_route trace_size interps trip shape).2 =
      buildRoutesFor form_path
        (interps.takeWhile (fun r => !r.segments.isEmpty)) (trip, shape) := by
  rw [map_match, if_neg htrace]
  exact mmLoop_trace_route_error form_path interps trip shape [] hbad

/-- Witness instantiating `C4_empty_segments` on the good-then-bad
example. -/
theorem C4_empty_segments_witness :
    (map_match fpEx .trace_route 1 [c4good, c4bad] [] c4shape).1 = .error () ∧
    (map_match fpEx .trace_route 1 [c4good, c4bad] [] c4shape).2 =
      buildRoutesFor fpEx
        (([c4good, c4bad]).takeWhile (fun r => !r.segments.isEmpty)) ([], c4shape) :=
  C4_empty_segments fpEx [c4good, c4bad] 1 [] c4shape (by decide) (by decide)
